import Mathlib

set_option maxRecDepth 20000
set_option maxHeartbeats 4000000

/-!
Verification of the `fix-api-paths.py` patcher script of the Dev-Tunnel-Proxy
repository.  The script reads one target file, applies a fixed ordered
sequence of text transformations (two literal insertions, two global regex
substitutions, two literal array replacements and one literal guard
replacement), and writes the result back.

The embedding models the target file content as a `List Char` and each
transformation as an executable function on it:

* `content.replace(old, new)` in Python replaces every non-overlapping
  occurrence of `old`, scanning left to right; this is `replaceAll`.
* `re.sub(r"u\.pathname === '/api/([^']+)'", r"u.pathname === apiPath('\1')", content)`
  is `subEq`: at a position the pattern matches iff the literal prefix
  `u.pathname === '/api/` is present, followed by a non-empty maximal run of
  non-quote characters, followed by a quote (greedy `[^']+` takes the maximal
  run; backtracking cannot succeed with a shorter run because every shorter
  run is followed by a non-quote character).
* `re.sub(r"u\.pathname\.startsWith\('/api/([^']+)'\)", ...)` is `subStarts`,
  the same with literal prefix `u.pathname.startsWith('/api/` and the run
  followed by a quote and a closing parenthesis.

All scanners are written with an explicit fuel argument (the input length is
always sufficient fuel, since every step consumes at least one character), so
every definition is executable by kernel reduction.
-/

namespace DevProxy

/-- The single-quote character `'` (U+0027). -/
def qc : Char := Char.ofNat 39

/-- The closing-parenthesis character `)`. -/
def rp : Char := Char.ofNat 41

/-- The anchor line after which the configuration block is inserted
(first argument of the first `content.replace` in the script). -/
def sessionLine : List Char :=
  "const SESSION_FILE = path.join(ARTIFACTS_DIR, \x27admin-session.json\x27);".data

/-- The `config_section` string of the script (the inserted configuration
block defining `PROXY_API_BASE_PATH` and the `apiPath` helper).  The Python
triple-quoted literal starts and ends with a newline. -/
def config_section : List Char :=
  ("\n// ========================================\n"
    ++ "// API BASE PATH CONFIGURATION\n"
    ++ "// Centralized configuration for API endpoint namespacing\n"
    ++ "// ========================================\n"
    ++ "const PROXY_API_BASE_PATH = process.env.PROXY_API_BASE_PATH || \x27/devproxy/api\x27;\n"
    ++ "\n"
    ++ "// Helper to build API paths consistently\n"
    ++ "function apiPath(path) \x7b\n"
    ++ "  // Remove leading slash from path if present to avoid double slashes\n"
    ++ "  const cleanPath = path.startsWith(\x27/\x27) ? path.slice(1) : path;\n"
    ++ "  return \x60$\x7bPROXY_API_BASE_PATH\x7d/$\x7bcleanPath\x7d\x60;\n"
    ++ "\x7d\n").data

/-- Literal prefix of the equality-check regex `u\.pathname === '/api/([^']+)'`. -/
def eqPat : List Char := "u.pathname === \x27/api/".data

/-- Replacement text of the equality-check substitution, up to the captured group. -/
def eqRepA : List Char := "u.pathname === apiPath(\x27".data

/-- Replacement text of the equality-check substitution, after the captured group. -/
def eqRepB : List Char := "\x27)".data

/-- Literal prefix of the startsWith regex `u\.pathname\.startsWith\('/api/([^']+)'\)`. -/
def swPat : List Char := "u.pathname.startsWith(\x27/api/".data

/-- Replacement text of the startsWith substitution, up to the captured group. -/
def swRepA : List Char := "u.pathname.startsWith(apiPath(\x27".data

/-- Replacement text of the startsWith substitution, after the captured group. -/
def swRepB : List Char := "\x27))".data

/-- The `config_endpoint` string of the script (the inserted `GET /config`
route branch).  The second line of the literal is four spaces. -/
def config_endpoint : List Char :=
  ("\n    \n"
    ++ "    // GET /config - Public endpoint for frontend configuration\n"
    ++ "    // Returns API base path and other client configuration\n"
    ++ "    if (req.method === \x27GET\x27 && u.pathname === \x27/config\x27)\x7b\n"
    ++ "      return send(res, 200, \x7b\n"
    ++ "        apiBasePath: PROXY_API_BASE_PATH,\n"
    ++ "        version: \x271.0.0\x27\n"
    ++ "      \x7d);\n"
    ++ "    \x7d\n").data

/-- The protected-routes marker comment block before which the route branch
is inserted. -/
def marker : List Char :=
  ("    // ========================================\n"
    ++ "    // PROTECTED ROUTES - Require Authentication\n"
    ++ "    // ========================================").data

/-- The `old_public` literal array block of the script. -/
def old_public : List Char :=
  ("    // Public endpoints that don\x27t require authentication\n"
    ++ "    const publicEndpoints = [\n"
    ++ "      \x27/api/ai/health\x27,\n"
    ++ "      \x27/api/ai/stats\x27,\n"
    ++ "      \x27/api/ai/thoughts\x27,\n"
    ++ "      \x27/api/overrides/conflicts\x27\n"
    ++ "    ];").data

/-- The `new_public` literal array block of the script. -/
def new_public : List Char :=
  ("    // Public endpoints that don\x27t require authentication\n"
    ++ "    const publicEndpoints = [\n"
    ++ "      apiPath(\x27ai/health\x27),\n"
    ++ "      apiPath(\x27ai/stats\x27),\n"
    ++ "      apiPath(\x27ai/thoughts\x27),\n"
    ++ "      apiPath(\x27overrides/conflicts\x27)\n"
    ++ "    ];").data

/-- The `old_protected` literal array block of the script. -/
def old_protected : List Char :=
  ("    // Protect all admin/management endpoints (except public ones)\n"
    ++ "    const protectedPaths = [\n"
    ++ "      \x27/api/apps/\x27,\n"
    ++ "      \x27/api/config/\x27,\n"
    ++ "      \x27/api/overrides/\x27,\n"
    ++ "      \x27/api/reports/\x27,\n"
    ++ "      \x27/api/ai/\x27,\n"
    ++ "      \x27/api/resolve-conflict\x27,\n"
    ++ "      \x27/api/rename-route\x27\n"
    ++ "    ];").data

/-- The `new_protected` literal array block of the script. -/
def new_protected : List Char :=
  ("    // Protect all admin/management endpoints (except public ones)\n"
    ++ "    const protectedPaths = [\n"
    ++ "      apiPath(\x27apps/\x27),\n"
    ++ "      apiPath(\x27config/\x27),\n"
    ++ "      apiPath(\x27overrides/\x27),\n"
    ++ "      apiPath(\x27reports/\x27),\n"
    ++ "      apiPath(\x27ai/\x27),\n"
    ++ "      apiPath(\x27resolve-conflict\x27),\n"
    ++ "      apiPath(\x27rename-route\x27)\n"
    ++ "    ];").data

/-- The debug-guard line replaced by the last `content.replace`. -/
def debug_old : List Char :=
  "if (u.pathname.startsWith(\x27/api/\x27)) \x7b".data

/-- The replacement of the debug guard. -/
def debug_new : List Char :=
  "if (u.pathname.startsWith(PROXY_API_BASE_PATH)) \x7b".data

/-- The success message printed at the end of the script. -/
def okMessage : List Char := "✅ Fixed all API paths".data

/-! ## Occurrence counting -/

/-- Number of positions of `s` at which `pat` occurs as a substring
(all positions are counted, also overlapping ones). -/
def countOcc (pat : List Char) : List Char → Nat
  | [] => if pat.isPrefixOf ([] : List Char) then 1 else 0
  | c :: cs => (if pat.isPrefixOf (c :: cs) then 1 else 0) + countOcc pat cs

/-- Number of positions lying in the `a` part of `a ++ b` at which `pat`
occurs in `a ++ b` (the occurrence may extend into `b`). -/
def countOccIn (pat : List Char) : List Char → List Char → Nat
  | [], _ => 0
  | c :: cs, b => (if pat.isPrefixOf (c :: cs ++ b) then 1 else 0) + countOccIn pat cs b

/-! ## Python `str.replace` -/

/-- Fuel-indexed scanner for Python `str.replace`: replaces every
non-overlapping occurrence of `pat` by `rep`, scanning left to right.
Any fuel of at least the input length computes the full result, because each
step consumes at least one input character. -/
def replaceAllF : Nat → List Char → List Char → List Char → List Char
  | 0, _, _, s => s
  | _+1, _, _, [] => []
  | f+1, pat, rep, c :: cs =>
    if !pat.isEmpty && pat.isPrefixOf (c :: cs) then
      rep ++ replaceAllF f pat rep ((c :: cs).drop pat.length)
    else
      c :: replaceAllF f pat rep cs

/-- Python `content.replace(pat, rep)` on `List Char`. -/
def replaceAll (pat rep s : List Char) : List Char :=
  replaceAllF s.length pat rep s

/-! ## The equality-check substitution (step 2) -/

/-- Does the equality-check regex match at the head of `s`?  True iff the
literal prefix is present, followed by a non-empty run of non-quote
characters, followed by a quote. -/
def eqMatchAt (s : List Char) : Bool :=
  eqPat.isPrefixOf s
    && !((s.drop eqPat.length).takeWhile (fun x => x != qc)).isEmpty
    && !((s.drop eqPat.length).dropWhile (fun x => x != qc)).isEmpty

/-- Does the equality-check regex match anywhere in `s`? -/
def hasEqMatch : List Char → Bool
  | [] => false
  | c :: cs => eqMatchAt (c :: cs) || hasEqMatch cs

/-- Fuel-indexed scanner for the equality-check substitution
`re.sub(r"u\.pathname === '/api/([^']+)'", r"u.pathname === apiPath('\1')", content)`. -/
def subEqF : Nat → List Char → List Char
  | 0, s => s
  | _+1, [] => []
  | f+1, c :: cs =>
    if eqMatchAt (c :: cs) then
      eqRepA ++ ((c :: cs).drop eqPat.length).takeWhile (fun x => x != qc)
        ++ eqRepB
        ++ subEqF f ((((c :: cs).drop eqPat.length).dropWhile (fun x => x != qc)).drop 1)
    else
      c :: subEqF f cs

/-- The equality-check substitution on the whole text. -/
def subEq (s : List Char) : List Char := subEqF s.length s

/-! ## The startsWith substitution (step 3) -/

/-- Does the startsWith regex match at the head of `s`?  True iff the literal
prefix is present, followed by a non-empty run of non-quote characters,
followed by a quote and a closing parenthesis. -/
def swMatchAt (s : List Char) : Bool :=
  swPat.isPrefixOf s
    && !((s.drop swPat.length).takeWhile (fun x => x != qc)).isEmpty
    && ((((s.drop swPat.length).dropWhile (fun x => x != qc)).drop 1).head? == some rp)

/-- Does the startsWith regex match anywhere in `s`? -/
def hasSwMatch : List Char → Bool
  | [] => false
  | c :: cs => swMatchAt (c :: cs) || hasSwMatch cs

/-- Fuel-indexed scanner for the startsWith substitution
`re.sub(r"u\.pathname\.startsWith\('/api/([^']+)'\)", r"u.pathname.startsWith(apiPath('\1'))", content)`. -/
def subStartsF : Nat → List Char → List Char
  | 0, s => s
  | _+1, [] => []
  | f+1, c :: cs =>
    if swMatchAt (c :: cs) then
      swRepA ++ ((c :: cs).drop swPat.length).takeWhile (fun x => x != qc)
        ++ swRepB
        ++ subStartsF f ((((c :: cs).drop swPat.length).dropWhile (fun x => x != qc)).drop 2)
    else
      c :: subStartsF f cs

/-- The startsWith substitution on the whole text. -/
def subStarts (s : List Char) : List Char := subStartsF s.length s

/-! ## The seven transformation steps and the pipeline -/

/-- Step 1: insert `config_section` after every occurrence of the anchor line. -/
def anchorStep (s : List Char) : List Char :=
  replaceAll sessionLine (sessionLine ++ config_section) s

/-- Step 4: insert `config_endpoint` (plus a newline) before every occurrence
of the protected-routes marker block. -/
def endpointStep (s : List Char) : List Char :=
  replaceAll marker (config_endpoint ++ "\n".data ++ marker) s

/-- Step 5a: replace the `publicEndpoints` array block. -/
def publicStep (s : List Char) : List Char :=
  replaceAll old_public new_public s

/-- Step 5b: replace the `protectedPaths` array block. -/
def protectedStep (s : List Char) : List Char :=
  replaceAll old_protected new_protected s

/-- Step 6: replace the debug-guard line. -/
def debugStep (s : List Char) : List Char :=
  replaceAll debug_old debug_new s

/-- The whole transformation pipeline of the script, in source order:
anchor insertion, equality-check substitution, startsWith substitution,
route-branch insertion, the two array replacements, debug-guard replacement. -/
def fixApiPaths (s : List Char) : List Char :=
  debugStep (protectedStep (publicStep (endpointStep (subStarts (subEq (anchorStep s))))))

/-- The observable run of the script: the text written back to the target
file together with the message printed to stdout. -/
def run (s : List Char) : List Char × List Char :=
  (fixApiPaths s, okMessage)

/-! Sanity checks of the embedding on concrete inputs. -/

example : subEq "u.pathname === \x27/api/login\x27".data
    = "u.pathname === apiPath(\x27login\x27)".data := by decide

example : subEq "u.pathname === \x27/api/\x27".data
    = "u.pathname === \x27/api/\x27".data := by decide

example : subStarts "u.pathname.startsWith(\x27/api/admin/\x27)".data
    = "u.pathname.startsWith(apiPath(\x27admin/\x27))".data := by decide

example : subStarts debug_old = debug_old := by decide

example : replaceAll "ab".data "X".data "zababy".data = "zXXy".data := by decide

example : countOcc "aa".data "aaa".data = 2 := by decide

/-! ## Generic lemmas about occurrence counting -/

theorem isPrefixOf_app : ∀ (xs ys : List Char), xs.isPrefixOf (xs ++ ys) = true
  | [], ys => by simp [List.isPrefixOf]
  | x :: xs, ys => by
    show (x == x && xs.isPrefixOf (xs ++ ys)) = true
    rw [beq_self_eq_true, isPrefixOf_app xs ys]
    rfl

theorem drop_app : ∀ (a b : List Char), (a ++ b).drop a.length = b
  | [], _ => rfl
  | _ :: xs, b => drop_app xs b

theorem countOcc_cons (pat : List Char) (c : Char) (cs : List Char) :
    countOcc pat (c :: cs)
      = (if pat.isPrefixOf (c :: cs) then 1 else 0) + countOcc pat cs := rfl

theorem countOccIn_cons (pat : List Char) (c : Char) (cs b : List Char) :
    countOccIn pat (c :: cs) b
      = (if pat.isPrefixOf (c :: (cs ++ b)) then 1 else 0) + countOccIn pat cs b := rfl

theorem countOcc_append (pat a b : List Char) :
    countOcc pat (a ++ b) = countOccIn pat a b + countOcc pat b := by
  induction a with
  | nil => simp [countOccIn]
  | cons c cs ih =>
    rw [List.cons_append, countOcc_cons, countOccIn_cons, ih]
    omega

theorem countOcc_le_append (pat a b : List Char) :
    countOcc pat b ≤ countOcc pat (a ++ b) := by
  rw [countOcc_append]
  omega

theorem countOcc_self_append (pat z : List Char) (h : pat ≠ []) :
    1 + countOcc pat z ≤ countOcc pat (pat ++ z) := by
  match pat, h with
  | c :: cs, _ =>
    have h1 : (c :: cs).isPrefixOf ((c :: cs) ++ z) = true := isPrefixOf_app _ _
    rw [List.cons_append] at h1 ⊢
    rw [countOcc_cons, h1]
    have h2 := countOcc_le_append (c :: cs) cs z
    simp only [if_true]
    omega

/-! ## Lemmas about `replaceAll` -/

theorem replaceAllF_noop (pat rep : List Char) :
    ∀ (f : Nat) (s : List Char), countOcc pat s = 0 → replaceAllF f pat rep s = s := by
  intro f
  induction f with
  | zero => intro s _; rfl
  | succ f ih =>
    intro s h
    match s with
    | [] => rfl
    | c :: cs =>
      rw [countOcc_cons] at h
      have h1 : pat.isPrefixOf (c :: cs) = false := by
        by_contra hc
        rw [Bool.not_eq_false] at hc
        rw [hc] at h
        simp at h
      have h2 : countOcc pat cs = 0 := by
        rw [h1] at h
        simpa using h
      simp [replaceAllF, h1, ih cs h2]

theorem replaceAll_noop (pat rep s : List Char) (h : countOcc pat s = 0) :
    replaceAll pat rep s = s :=
  replaceAllF_noop pat rep s.length s h

theorem replaceAllF_single (pat rep : List Char) (hne : pat ≠ []) :
    ∀ (p : List Char) (f : Nat) (q : List Char), (p ++ pat ++ q).length ≤ f →
      countOcc pat (p ++ pat ++ q) = 1 →
      replaceAllF f pat rep (p ++ pat ++ q) = p ++ rep ++ q := by
  intro p
  induction p with
  | nil =>
    intro f q hf h
    simp only [List.nil_append] at *
    match pat, hne with
    | c :: cs, _ =>
      match f, hf with
      | f + 1, _ =>
        rw [List.cons_append]
        show (if !(c :: cs).isEmpty && (c :: cs).isPrefixOf (c :: (cs ++ q)) then
            rep ++ replaceAllF f (c :: cs) rep ((c :: (cs ++ q)).drop (c :: cs).length)
          else c :: replaceAllF f (c :: cs) rep (cs ++ q)) = rep ++ q
        have h1 : (c :: cs).isPrefixOf (c :: (cs ++ q)) = true := by
          have := isPrefixOf_app (c :: cs) q
          rwa [List.cons_append] at this
        rw [h1]
        have h2 : (c :: (cs ++ q)).drop (c :: cs).length = q := by
          have := drop_app (c :: cs) q
          rwa [List.cons_append] at this
        rw [h2]
        simp only [List.isEmpty_cons, Bool.not_false, Bool.true_and, if_true]
        have h3 : countOcc (c :: cs) q = 0 := by
          rw [List.cons_append, countOcc_cons] at h
          rw [h1] at h
          simp only [if_true] at h
          have h4 : countOcc (c :: cs) (cs ++ q) = 0 := by omega
          have h5 := countOcc_le_append (c :: cs) cs q
          omega
        rw [replaceAllF_noop (c :: cs) rep f q h3]
  | cons a as ih =>
    intro f q hf h
    have hge : 1 + countOcc pat (pat ++ q) ≤ countOcc pat (pat ++ q) + 1 := by omega
    have hp1 : 1 ≤ countOcc pat (pat ++ q) := by
      have := countOcc_self_append pat q hne
      omega
    have hp2 : 1 ≤ countOcc pat (as ++ pat ++ q) := by
      have := countOcc_le_append pat as (pat ++ q)
      rw [List.append_assoc]
      omega
    rw [List.cons_append, List.cons_append] at h
    rw [countOcc_cons] at h
    have h1 : pat.isPrefixOf (a :: (as ++ pat ++ q)) = false := by
      by_contra hc
      rw [Bool.not_eq_false] at hc
      rw [hc] at h
      simp only [if_true] at h
      omega
    have h2 : countOcc pat (as ++ pat ++ q) = 1 := by
      rw [h1] at h
      simpa using h
    match f, hf with
    | f + 1, hf =>
      rw [List.cons_append, List.cons_append]
      simp only [replaceAllF, h1, Bool.and_false, if_false]
      have hlen : (as ++ pat ++ q).length ≤ f := by
        rw [List.cons_append, List.cons_append, List.length_cons] at hf
        omega
      rw [ih f q hlen h2]
      simp

theorem replaceAll_single (pat rep : List Char) (hne : pat ≠ []) (p q : List Char)
    (h : countOcc pat (p ++ pat ++ q) = 1) :
    replaceAll pat rep (p ++ pat ++ q) = p ++ rep ++ q :=
  replaceAllF_single pat rep hne p (p ++ pat ++ q).length q (Nat.le_refl _) h

/-! ## takeWhile and dropWhile over a quote-free run -/

theorem takeWhile_run (p : Char → Bool) :
    ∀ (X : List Char) (a : Char) (A : List Char),
      (∀ x ∈ X, p x = true) → p a = false → (X ++ a :: A).takeWhile p = X
  | [], a, A, _, ha => by simp [List.takeWhile_cons, ha]
  | x :: xs, a, A, hX, ha => by
    have hx : p x = true := hX x (by simp)
    have ih := takeWhile_run p xs a A (fun y hy => hX y (by simp [hy])) ha
    simp [List.takeWhile_cons, hx, ih]

theorem dropWhile_run (p : Char → Bool) :
    ∀ (X : List Char) (a : Char) (A : List Char),
      (∀ x ∈ X, p x = true) → p a = false → (X ++ a :: A).dropWhile p = a :: A
  | [], a, A, _, ha => by simp [List.dropWhile_cons, ha]
  | x :: xs, a, A, hX, ha => by
    have hx : p x = true := hX x (by simp)
    have ih := dropWhile_run p xs a A (fun y hy => hX y (by simp [hy])) ha
    simp [List.dropWhile_cons, hx, ih]

theorem length_dropWhile (p : Char → Bool) :
    ∀ (l : List Char), (l.dropWhile p).length ≤ l.length
  | [] => by simp [List.dropWhile]
  | c :: cs => by
    rw [List.dropWhile_cons]
    by_cases h : p c = true
    · simp only [h, if_true]
      exact Nat.le_trans (length_dropWhile p cs) (by simp)
    · simp only [Bool.not_eq_true] at h
      simp [h]

theorem mem_notq (X : List Char) (hq : qc ∉ X) : ∀ x ∈ X, (x != qc) = true := by
  intro x hx
  have : x ≠ qc := fun he => hq (he ▸ hx)
  simpa [bne_iff_ne] using this

theorem takeWhile_run_q (X A : List Char) (hq : qc ∉ X) :
    (X ++ qc :: A).takeWhile (fun x => x != qc) = X :=
  takeWhile_run _ X qc A (mem_notq X hq) (by simp)

theorem dropWhile_run_q (X A : List Char) (hq : qc ∉ X) :
    (X ++ qc :: A).dropWhile (fun x => x != qc) = qc :: A :=
  dropWhile_run _ X qc A (mem_notq X hq) (by simp)

/-! ## Lemmas about the equality-check substitution -/

theorem eqPat_length : eqPat.length = 21 := by decide

theorem subEqF_noop_pf : ∀ (f : Nat) (s : List Char),
    countOcc eqPat s = 0 → subEqF f s = s := by
  intro f
  induction f with
  | zero => intro s _; rfl
  | succ f ih =>
    intro s h
    match s with
    | [] => rfl
    | c :: cs =>
      rw [countOcc_cons] at h
      have h1 : eqPat.isPrefixOf (c :: cs) = false := by
        by_contra hc
        rw [Bool.not_eq_false] at hc
        rw [hc] at h
        simp at h
      have h2 : countOcc eqPat cs = 0 := by
        rw [h1] at h
        simpa using h
      have hm : eqMatchAt (c :: cs) = false := by simp [eqMatchAt, h1]
      simp [subEqF, hm, ih cs h2]

theorem subEqF_noop_match : ∀ (f : Nat) (s : List Char),
    hasEqMatch s = false → subEqF f s = s := by
  intro f
  induction f with
  | zero => intro s _; rfl
  | succ f ih =>
    intro s h
    match s with
    | [] => rfl
    | c :: cs =>
      have h0 : (eqMatchAt (c :: cs) || hasEqMatch cs) = false := h
      rw [Bool.or_eq_false_iff] at h0
      simp [subEqF, h0.1, ih cs h0.2]

theorem subEq_noop_match (s : List Char) (h : hasEqMatch s = false) : subEq s = s :=
  subEqF_noop_match s.length s h

theorem subEqF_scan : ∀ (t : List Char) (f : Nat) (R : List Char),
    (t ++ R).length ≤ f → countOccIn eqPat t R = 0 →
    subEqF f (t ++ R) = t ++ subEqF (f - t.length) R := by
  intro t
  induction t with
  | nil =>
    intro f R _ _
    simp
  | cons c cs ih =>
    intro f R hf h
    rw [countOccIn_cons] at h
    have h1 : eqPat.isPrefixOf (c :: (cs ++ R)) = false := by
      by_contra hc
      rw [Bool.not_eq_false] at hc
      rw [hc] at h
      simp at h
    have h2 : countOccIn eqPat cs R = 0 := by
      rw [h1] at h
      simpa using h
    match f, hf with
    | f + 1, hf =>
      rw [List.cons_append]
      have hm : eqMatchAt (c :: (cs ++ R)) = false := by simp [eqMatchAt, h1]
      simp only [subEqF, hm, Bool.false_eq_true, if_false]
      have hlen : (cs ++ R).length ≤ f := by
        rw [List.cons_append, List.length_cons] at hf
        omega
      rw [ih f R hlen h2]
      simp [Nat.succ_sub_succ]

theorem eqMatchAt_fire (X A : List Char) (hX : X ≠ []) (hq : qc ∉ X) :
    eqMatchAt (eqPat ++ (X ++ qc :: A)) = true := by
  unfold eqMatchAt
  rw [isPrefixOf_app, drop_app, takeWhile_run_q X A hq, dropWhile_run_q X A hq]
  have hXe : X.isEmpty = false := by
    cases X with
    | nil => exact absurd rfl hX
    | cons x xs => rfl
  simp [hXe]

theorem subEqF_fire (X A : List Char) (hX : X ≠ []) (hq : qc ∉ X) (f : Nat) :
    subEqF (f + 1) (eqPat ++ (X ++ qc :: A))
      = eqRepA ++ (X ++ (eqRepB ++ subEqF f A)) := by
  have hm := eqMatchAt_fire X A hX hq
  obtain ⟨c, cs, hp⟩ : ∃ c cs, eqPat = c :: cs := by
    cases hpe : eqPat with
    | nil => exact absurd hpe (by decide)
    | cons c cs => exact ⟨c, cs, rfl⟩
  rw [hp, List.cons_append] at hm ⊢
  simp only [subEqF, hm, if_true]
  simp only [← List.cons_append, ← hp]
  rw [drop_app, takeWhile_run_q X A hq, dropWhile_run_q X A hq]
  simp

theorem subEqF_fuel : ∀ (f1 : Nat) (s : List Char) (f2 : Nat),
    s.length ≤ f1 → s.length ≤ f2 → subEqF f1 s = subEqF f2 s := by
  intro f1
  induction f1 with
  | zero =>
    intro s f2 h1 _
    have hs : s = [] := by
      cases s with
      | nil => rfl
      | cons c cs => simp at h1
    subst hs
    cases f2 <;> rfl
  | succ f ih =>
    intro s f2 h1 h2
    match s with
    | [] => cases f2 <;> rfl
    | c :: cs =>
      match f2, h2 with
      | g + 1, h2 =>
        rw [List.length_cons] at h1 h2
        by_cases hm : eqMatchAt (c :: cs) = true
        · simp only [subEqF, hm, if_true]
          have hd : (((c :: cs).drop eqPat.length).dropWhile (fun x => x != qc)).drop 1
              = (((c :: cs).drop eqPat.length).dropWhile (fun x => x != qc)).drop 1 := rfl
          have hb : ((((c :: cs).drop eqPat.length).dropWhile (fun x => x != qc)).drop 1).length
              ≤ cs.length := by
            have hpl : eqPat.length = 21 := eqPat_length
            have e1 : ((c :: cs).drop eqPat.length).length = cs.length + 1 - eqPat.length := by
              rw [List.length_drop, List.length_cons]
            have e2 := length_dropWhile (fun x => x != qc) ((c :: cs).drop eqPat.length)
            have e3 : ((((c :: cs).drop eqPat.length).dropWhile (fun x => x != qc)).drop 1).length
                = (((c :: cs).drop eqPat.length).dropWhile (fun x => x != qc)).length - 1 :=
              List.length_drop _ _
            omega
          rw [ih _ g (Nat.le_trans hb (by omega)) (Nat.le_trans hb (by omega))]
        · have hm2 : eqMatchAt (c :: cs) = false := by
            simpa using hm
          simp only [subEqF, hm2, Bool.false_eq_true, if_false]
          rw [ih cs g (by omega) (by omega)]

/-! ## Lemmas about the startsWith substitution -/

theorem swPat_length : swPat.length = 28 := by decide

theorem subStartsF_noop_pf : ∀ (f : Nat) (s : List Char),
    countOcc swPat s = 0 → subStartsF f s = s := by
  intro f
  induction f with
  | zero => intro s _; rfl
  | succ f ih =>
    intro s h
    match s with
    | [] => rfl
    | c :: cs =>
      rw [countOcc_cons] at h
      have h1 : swPat.isPrefixOf (c :: cs) = false := by
        by_contra hc
        rw [Bool.not_eq_false] at hc
        rw [hc] at h
        simp at h
      have h2 : countOcc swPat cs = 0 := by
        rw [h1] at h
        simpa using h
      have hm : swMatchAt (c :: cs) = false := by simp [swMatchAt, h1]
      simp [subStartsF, hm, ih cs h2]

theorem subStartsF_noop_match : ∀ (f : Nat) (s : List Char),
    hasSwMatch s = false → subStartsF f s = s := by
  intro f
  induction f with
  | zero => intro s _; rfl
  | succ f ih =>
    intro s h
    match s with
    | [] => rfl
    | c :: cs =>
      have h0 : (swMatchAt (c :: cs) || hasSwMatch cs) = false := h
      rw [Bool.or_eq_false_iff] at h0
      simp [subStartsF, h0.1, ih cs h0.2]

theorem subStarts_noop_match (s : List Char) (h : hasSwMatch s = false) : subStarts s = s :=
  subStartsF_noop_match s.length s h

theorem subStartsF_scan : ∀ (t : List Char) (f : Nat) (R : List Char),
    (t ++ R).length ≤ f → countOccIn swPat t R = 0 →
    subStartsF f (t ++ R) = t ++ subStartsF (f - t.length) R := by
  intro t
  induction t with
  | nil =>
    intro f R _ _
    simp
  | cons c cs ih =>
    intro f R hf h
    rw [countOccIn_cons] at h
    have h1 : swPat.isPrefixOf (c :: (cs ++ R)) = false := by
      by_contra hc
      rw [Bool.not_eq_false] at hc
      rw [hc] at h
      simp at h
    have h2 : countOccIn swPat cs R = 0 := by
      rw [h1] at h
      simpa using h
    match f, hf with
    | f + 1, hf =>
      rw [List.cons_append]
      have hm : swMatchAt (c :: (cs ++ R)) = false := by simp [swMatchAt, h1]
      simp only [subStartsF, hm, Bool.false_eq_true, if_false]
      have hlen : (cs ++ R).length ≤ f := by
        rw [List.cons_append, List.length_cons] at hf
        omega
      rw [ih f R hlen h2]
      simp [Nat.succ_sub_succ]

theorem swMatchAt_fire (X A : List Char) (hX : X ≠ []) (hq : qc ∉ X) :
    swMatchAt (swPat ++ (X ++ qc :: rp :: A)) = true := by
  unfold swMatchAt
  rw [isPrefixOf_app, drop_app, takeWhile_run_q X (rp :: A) hq, dropWhile_run_q X (rp :: A) hq]
  have hXe : X.isEmpty = false := by
    cases X with
    | nil => exact absurd rfl hX
    | cons x xs => rfl
  simp [hXe]

theorem subStartsF_fire (X A : List Char) (hX : X ≠ []) (hq : qc ∉ X) (f : Nat) :
    subStartsF (f + 1) (swPat ++ (X ++ qc :: rp :: A))
      = swRepA ++ (X ++ (swRepB ++ subStartsF f A)) := by
  have hm := swMatchAt_fire X A hX hq
  obtain ⟨c, cs, hp⟩ : ∃ c cs, swPat = c :: cs := by
    cases hpe : swPat with
    | nil => exact absurd hpe (by decide)
    | cons c cs => exact ⟨c, cs, rfl⟩
  rw [hp, List.cons_append] at hm ⊢
  simp only [subStartsF, hm, if_true]
  simp only [← List.cons_append, ← hp]
  rw [drop_app, takeWhile_run_q X (rp :: A) hq, dropWhile_run_q X (rp :: A) hq]
  simp

theorem subStartsF_fuel : ∀ (f1 : Nat) (s : List Char) (f2 : Nat),
    s.length ≤ f1 → s.length ≤ f2 → subStartsF f1 s = subStartsF f2 s := by
  intro f1
  induction f1 with
  | zero =>
    intro s f2 h1 _
    have hs : s = [] := by
      cases s with
      | nil => rfl
      | cons c cs => simp at h1
    subst hs
    cases f2 <;> rfl
  | succ f ih =>
    intro s f2 h1 h2
    match s with
    | [] => cases f2 <;> rfl
    | c :: cs =>
      match f2, h2 with
      | g + 1, h2 =>
        rw [List.length_cons] at h1 h2
        by_cases hm : swMatchAt (c :: cs) = true
        · simp only [subStartsF, hm, if_true]
          have hb : ((((c :: cs).drop swPat.length).dropWhile (fun x => x != qc)).drop 2).length
              ≤ cs.length := by
            have hpl : swPat.length = 28 := swPat_length
            have e1 : ((c :: cs).drop swPat.length).length = cs.length + 1 - swPat.length := by
              rw [List.length_drop, List.length_cons]
            have e2 := length_dropWhile (fun x => x != qc) ((c :: cs).drop swPat.length)
            have e3 : ((((c :: cs).drop swPat.length).dropWhile (fun x => x != qc)).drop 2).length
                = (((c :: cs).drop swPat.length).dropWhile (fun x => x != qc)).length - 2 :=
              List.length_drop _ _
            omega
          rw [ih _ g (Nat.le_trans hb (by omega)) (Nat.le_trans hb (by omega))]
        · have hm2 : swMatchAt (c :: cs) = false := by
            simpa using hm
          simp only [subStartsF, hm2, Bool.false_eq_true, if_false]
          rw [ih cs g (by omega) (by omega)]

/-! ## Segmented texts: a text interleaving free parts with regex matches

`asmEq segs tl` is the text `t₀ ++ eq(X₀) ++ t₁ ++ eq(X₁) ++ ... ++ tl`
where `eq(X)` is the full matched text `u.pathname === '/api/X'`, and
`asmEqR segs tl` is the same text with every match replaced by
`u.pathname === apiPath('X')`.  Likewise `asmSw`/`asmSwR` for the
startsWith pattern. -/

def asmEq : List (List Char × List Char) → List Char → List Char
  | [], tl => tl
  | (t, X) :: rest, tl => t ++ (eqPat ++ (X ++ qc :: asmEq rest tl))

def asmEqR : List (List Char × List Char) → List Char → List Char
  | [], tl => tl
  | (t, X) :: rest, tl => t ++ (eqRepA ++ (X ++ (eqRepB ++ asmEqR rest tl)))

def asmSw : List (List Char × List Char) → List Char → List Char
  | [], tl => tl
  | (t, X) :: rest, tl => t ++ (swPat ++ (X ++ qc :: rp :: asmSw rest tl))

def asmSwR : List (List Char × List Char) → List Char → List Char
  | [], tl => tl
  | (t, X) :: rest, tl => t ++ (swRepA ++ (X ++ (swRepB ++ asmSwR rest tl)))

theorem countOcc_asmEq_ge : ∀ (segs : List (List Char × List Char)) (tl : List Char),
    segs.length ≤ countOcc eqPat (asmEq segs tl) := by
  intro segs
  induction segs with
  | nil => intro tl; simp [asmEq]
  | cons seg rest ih =>
    intro tl
    obtain ⟨t, X⟩ := seg
    have h1 := ih tl
    have h2 : countOcc eqPat (asmEq rest tl) ≤ countOcc eqPat (qc :: asmEq rest tl) := by
      have := countOcc_le_append eqPat [qc] (asmEq rest tl)
      simpa using this
    have h3 := countOcc_le_append eqPat X (qc :: asmEq rest tl)
    have h4 := countOcc_self_append eqPat (X ++ qc :: asmEq rest tl) (by decide)
    have h5 := countOcc_le_append eqPat t (eqPat ++ (X ++ qc :: asmEq rest tl))
    simp only [asmEq, List.length_cons]
    omega

theorem countOcc_asmSw_ge : ∀ (segs : List (List Char × List Char)) (tl : List Char),
    segs.length ≤ countOcc swPat (asmSw segs tl) := by
  intro segs
  induction segs with
  | nil => intro tl; simp [asmSw]
  | cons seg rest ih =>
    intro tl
    obtain ⟨t, X⟩ := seg
    have h1 := ih tl
    have h2 : countOcc swPat (asmSw rest tl) ≤ countOcc swPat (rp :: asmSw rest tl) := by
      have := countOcc_le_append swPat [rp] (asmSw rest tl)
      simpa using this
    have h2b : countOcc swPat (rp :: asmSw rest tl) ≤ countOcc swPat (qc :: rp :: asmSw rest tl) := by
      have := countOcc_le_append swPat [qc] (rp :: asmSw rest tl)
      simpa using this
    have h3 := countOcc_le_append swPat X (qc :: rp :: asmSw rest tl)
    have h4 := countOcc_self_append swPat (X ++ qc :: rp :: asmSw rest tl) (by decide)
    have h5 := countOcc_le_append swPat t (swPat ++ (X ++ qc :: rp :: asmSw rest tl))
    simp only [asmSw, List.length_cons]
    omega

theorem subEqF_asm : ∀ (segs : List (List Char × List Char)) (f : Nat) (tl : List Char),
    (asmEq segs tl).length ≤ f →
    (∀ s ∈ segs, s.2 ≠ [] ∧ qc ∉ s.2) →
    countOcc eqPat (asmEq segs tl) = segs.length →
    subEqF f (asmEq segs tl) = asmEqR segs tl := by
  intro segs
  induction segs with
  | nil =>
    intro f tl _ _ hcnt
    simp only [asmEq, List.length_nil] at hcnt
    simp only [asmEq, asmEqR]
    exact subEqF_noop_pf f tl hcnt
  | cons seg rest ih =>
    intro f tl hf hseg hcnt
    obtain ⟨t, X⟩ := seg
    have hX : X ≠ [] ∧ qc ∉ X := hseg (t, X) (by simp)
    have hself := countOcc_self_append eqPat (X ++ qc :: asmEq rest tl) (by decide)
    have hZA : countOcc eqPat (asmEq rest tl)
        ≤ countOcc eqPat (X ++ qc :: asmEq rest tl) := by
      have u1 : countOcc eqPat (asmEq rest tl) ≤ countOcc eqPat (qc :: asmEq rest tl) := by
        have := countOcc_le_append eqPat [qc] (asmEq rest tl)
        simpa using this
      have u2 := countOcc_le_append eqPat X (qc :: asmEq rest tl)
      omega
    have hge := countOcc_asmEq_ge rest tl
    have happ : countOcc eqPat (asmEq ((t, X) :: rest) tl)
        = countOccIn eqPat t (eqPat ++ (X ++ qc :: asmEq rest tl))
          + countOcc eqPat (eqPat ++ (X ++ qc :: asmEq rest tl)) := by
      simp only [asmEq]
      exact countOcc_append eqPat t _
    rw [happ, List.length_cons] at hcnt
    have hIn : countOccIn eqPat t (eqPat ++ (X ++ qc :: asmEq rest tl)) = 0 := by omega
    have hArest : countOcc eqPat (asmEq rest tl) = rest.length := by omega
    have hflen : (t ++ (eqPat ++ (X ++ qc :: asmEq rest tl))).length ≤ f := by
      simpa [asmEq] using hf
    have hscan := subEqF_scan t f (eqPat ++ (X ++ qc :: asmEq rest tl)) hflen hIn
    have hrlen : (eqPat ++ (X ++ qc :: asmEq rest tl)).length ≤ f - t.length := by
      rw [List.length_append] at hflen
      omega
    have hpl : eqPat.length = 21 := eqPat_length
    obtain ⟨g, hg⟩ : ∃ g, f - t.length = g + 1 := by
      have h1 : eqPat.length ≤ (eqPat ++ (X ++ qc :: asmEq rest tl)).length := by
        rw [List.length_append]
        omega
      exact ⟨f - t.length - 1, by omega⟩
    have hfire := subEqF_fire X (asmEq rest tl) hX.1 hX.2 g
    have hgA : (asmEq rest tl).length ≤ g := by
      rw [List.length_append, List.length_append, List.length_cons] at hrlen
      omega
    have hfuel := subEqF_fuel g (asmEq rest tl) (asmEq rest tl).length hgA (Nat.le_refl _)
    have hih := ih (asmEq rest tl).length tl (Nat.le_refl _)
      (fun s hs => hseg s (by simp [hs])) hArest
    simp only [asmEq, asmEqR]
    rw [hscan, hg, hfire, hfuel, hih]

theorem subEq_asm (segs : List (List Char × List Char)) (tl : List Char)
    (hseg : ∀ s ∈ segs, s.2 ≠ [] ∧ qc ∉ s.2)
    (hcnt : countOcc eqPat (asmEq segs tl) = segs.length) :
    subEq (asmEq segs tl) = asmEqR segs tl :=
  subEqF_asm segs (asmEq segs tl).length tl (Nat.le_refl _) hseg hcnt

theorem subStartsF_asm : ∀ (segs : List (List Char × List Char)) (f : Nat) (tl : List Char),
    (asmSw segs tl).length ≤ f →
    (∀ s ∈ segs, s.2 ≠ [] ∧ qc ∉ s.2) →
    countOcc swPat (asmSw segs tl) = segs.length →
    subStartsF f (asmSw segs tl) = asmSwR segs tl := by
  intro segs
  induction segs with
  | nil =>
    intro f tl _ _ hcnt
    simp only [asmSw, List.length_nil] at hcnt
    simp only [asmSw, asmSwR]
    exact subStartsF_noop_pf f tl hcnt
  | cons seg rest ih =>
    intro f tl hf hseg hcnt
    obtain ⟨t, X⟩ := seg
    have hX : X ≠ [] ∧ qc ∉ X := hseg (t, X) (by simp)
    have hself := countOcc_self_append swPat (X ++ qc :: rp :: asmSw rest tl) (by decide)
    have hZA : countOcc swPat (asmSw rest tl)
        ≤ countOcc swPat (X ++ qc :: rp :: asmSw rest tl) := by
      have u0 : countOcc swPat (asmSw rest tl) ≤ countOcc swPat (rp :: asmSw rest tl) := by
        have := countOcc_le_append swPat [rp] (asmSw rest tl)
        simpa using this
      have u1 : countOcc swPat (rp :: asmSw rest tl)
          ≤ countOcc swPat (qc :: rp :: asmSw rest tl) := by
        have := countOcc_le_append swPat [qc] (rp :: asmSw rest tl)
        simpa using this
      have u2 := countOcc_le_append swPat X (qc :: rp :: asmSw rest tl)
      omega
    have hge := countOcc_asmSw_ge rest tl
    have happ : countOcc swPat (asmSw ((t, X) :: rest) tl)
        = countOccIn swPat t (swPat ++ (X ++ qc :: rp :: asmSw rest tl))
          + countOcc swPat (swPat ++ (X ++ qc :: rp :: asmSw rest tl)) := by
      simp only [asmSw]
      exact countOcc_append swPat t _
    rw [happ, List.length_cons] at hcnt
    have hIn : countOccIn swPat t (swPat ++ (X ++ qc :: rp :: asmSw rest tl)) = 0 := by omega
    have hArest : countOcc swPat (asmSw rest tl) = rest.length := by omega
    have hflen : (t ++ (swPat ++ (X ++ qc :: rp :: asmSw rest tl))).length ≤ f := by
      simpa [asmSw] using hf
    have hscan := subStartsF_scan t f (swPat ++ (X ++ qc :: rp :: asmSw rest tl)) hflen hIn
    have hrlen : (swPat ++ (X ++ qc :: rp :: asmSw rest tl)).length ≤ f - t.length := by
      rw [List.length_append] at hflen
      omega
    have hpl : swPat.length = 28 := swPat_length
    obtain ⟨g, hg⟩ : ∃ g, f - t.length = g + 1 := by
      have h1 : swPat.length ≤ (swPat ++ (X ++ qc :: rp :: asmSw rest tl)).length := by
        rw [List.length_append]
        omega
      exact ⟨f - t.length - 1, by omega⟩
    have hfire := subStartsF_fire X (asmSw rest tl) hX.1 hX.2 g
    have hgA : (asmSw rest tl).length ≤ g := by
      rw [List.length_append, List.length_append, List.length_cons, List.length_cons] at hrlen
      omega
    have hfuel := subStartsF_fuel g (asmSw rest tl) (asmSw rest tl).length hgA (Nat.le_refl _)
    have hih := ih (asmSw rest tl).length tl (Nat.le_refl _)
      (fun s hs => hseg s (by simp [hs])) hArest
    simp only [asmSw, asmSwR]
    rw [hscan, hg, hfire, hfuel, hih]

theorem subStarts_asm (segs : List (List Char × List Char)) (tl : List Char)
    (hseg : ∀ s ∈ segs, s.2 ≠ [] ∧ qc ∉ s.2)
    (hcnt : countOcc swPat (asmSw segs tl) = segs.length) :
    subStarts (asmSw segs tl) = asmSwR segs tl :=
  subStartsF_asm segs (asmSw segs tl).length tl (Nat.le_refl _) hseg hcnt

/-! ## Step-level lemmas for the literal replacement steps -/

/-- The newline character as a one-character text. -/
def nl : List Char := "\n".data

theorem anchorStep_noop (s : List Char) (h : countOcc sessionLine s = 0) :
    anchorStep s = s :=
  replaceAll_noop _ _ s h

theorem endpointStep_noop (s : List Char) (h : countOcc marker s = 0) :
    endpointStep s = s :=
  replaceAll_noop _ _ s h

theorem publicStep_noop (s : List Char) (h : countOcc old_public s = 0) :
    publicStep s = s :=
  replaceAll_noop _ _ s h

theorem protectedStep_noop (s : List Char) (h : countOcc old_protected s = 0) :
    protectedStep s = s :=
  replaceAll_noop _ _ s h

theorem debugStep_noop (s : List Char) (h : countOcc debug_old s = 0) :
    debugStep s = s :=
  replaceAll_noop _ _ s h

theorem anchorStep_single (p q : List Char)
    (h : countOcc sessionLine (p ++ (sessionLine ++ q)) = 1) :
    anchorStep (p ++ (sessionLine ++ q)) = p ++ (sessionLine ++ (config_section ++ q)) := by
  have h2 : countOcc sessionLine (p ++ sessionLine ++ q) = 1 := by
    simpa [List.append_assoc] using h
  have h3 := replaceAll_single sessionLine (sessionLine ++ config_section) (by decide) p q h2
  simpa [anchorStep, List.append_assoc] using h3

theorem endpointStep_single (p q : List Char)
    (h : countOcc marker (p ++ (marker ++ q)) = 1) :
    endpointStep (p ++ (marker ++ q)) = p ++ (config_endpoint ++ (nl ++ (marker ++ q))) := by
  have h2 : countOcc marker (p ++ marker ++ q) = 1 := by
    simpa [List.append_assoc] using h
  have h3 := replaceAll_single marker (config_endpoint ++ "\n".data ++ marker) (by decide) p q h2
  simpa [endpointStep, nl, List.append_assoc] using h3

theorem publicStep_single (p q : List Char)
    (h : countOcc old_public (p ++ (old_public ++ q)) = 1) :
    publicStep (p ++ (old_public ++ q)) = p ++ (new_public ++ q) := by
  have h2 : countOcc old_public (p ++ old_public ++ q) = 1 := by
    simpa [List.append_assoc] using h
  have h3 := replaceAll_single old_public new_public (by decide) p q h2
  simpa [publicStep, List.append_assoc] using h3

theorem protectedStep_single (p q : List Char)
    (h : countOcc old_protected (p ++ (old_protected ++ q)) = 1) :
    protectedStep (p ++ (old_protected ++ q)) = p ++ (new_protected ++ q) := by
  have h2 : countOcc old_protected (p ++ old_protected ++ q) = 1 := by
    simpa [List.append_assoc] using h
  have h3 := replaceAll_single old_protected new_protected (by decide) p q h2
  simpa [protectedStep, List.append_assoc] using h3

theorem debugStep_single (p q : List Char)
    (h : countOcc debug_old (p ++ (debug_old ++ q)) = 1) :
    debugStep (p ++ (debug_old ++ q)) = p ++ (debug_new ++ q) := by
  have h2 : countOcc debug_old (p ++ debug_old ++ q) = 1 := by
    simpa [List.append_assoc] using h
  have h3 := replaceAll_single debug_old debug_new (by decide) p q h2
  simpa [debugStep, List.append_assoc] using h3

/-- Propositional equality of two character lists from their boolean
equality; used to evaluate large concrete texts. -/
theorem eq_of_beqL {a b : List Char} (h : (a == b) = true) : a = b :=
  eq_of_beq h

/-! ## Claim theorems -/

/-- Claim C5: for a text containing the protected-routes marker comment block
verbatim (here: exactly once), the route-insertion step inserts the new
`GET /config` route branch, which returns status 200 with a body containing
`PROXY_API_BASE_PATH` and the version string `1.0.0`, immediately before
that marker block; if the marker block is not present verbatim, the step
leaves the text unchanged. -/
theorem endpointStep_inserts_before_marker (p q s2 : List Char)
    (h1 : countOcc marker (p ++ marker ++ q) = 1)
    (h2 : countOcc marker s2 = 0) :
    endpointStep (p ++ marker ++ q) = p ++ config_endpoint ++ nl ++ marker ++ q
    ∧ endpointStep s2 = s2
    ∧ countOcc "send(res, 200,".data config_endpoint = 1
    ∧ countOcc "apiBasePath: PROXY_API_BASE_PATH".data config_endpoint = 1
    ∧ countOcc "version: \x271.0.0\x27".data config_endpoint = 1
    ∧ countOcc "u.pathname === \x27/config\x27".data config_endpoint = 1 := by
  refine ⟨?_, endpointStep_noop s2 h2, by decide, by decide, by decide, by decide⟩
  have h3 := endpointStep_single p q (by simpa [List.append_assoc] using h1)
  simpa [List.append_assoc] using h3

/-- Witness for C5 at a concrete input. -/
theorem endpointStep_inserts_before_marker_witness :
    endpointStep ("x\n".data ++ marker ++ "\ny".data)
      = "x\n".data ++ config_endpoint ++ nl ++ marker ++ "\ny".data
    ∧ endpointStep "no marker here".data = "no marker here".data
    ∧ countOcc "send(res, 200,".data config_endpoint = 1
    ∧ countOcc "apiBasePath: PROXY_API_BASE_PATH".data config_endpoint = 1
    ∧ countOcc "version: \x271.0.0\x27".data config_endpoint = 1
    ∧ countOcc "u.pathname === \x27/config\x27".data config_endpoint = 1 :=
  endpointStep_inserts_before_marker "x\n".data "\ny".data "no marker here".data
    (by decide) (by decide)

/-- Claim C6: every transformation step whose match criterion does not occur
in its input leaves that text unchanged (and the model raises no error): for
an input containing no occurrence of the anchor line, no match of either
regex pattern, no marker block, neither literal array block and no
debug-guard line, the text written back is byte-identical to the text read. -/
theorem fixApiPaths_noop_when_nothing_matches (s : List Char)
    (h0 : countOcc sessionLine s = 0)
    (h1 : hasEqMatch s = false)
    (h2 : hasSwMatch s = false)
    (h3 : countOcc marker s = 0)
    (h4 : countOcc old_public s = 0)
    (h5 : countOcc old_protected s = 0)
    (h6 : countOcc debug_old s = 0) :
    fixApiPaths s = s ∧ run s = (s, okMessage) := by
  have hmain : fixApiPaths s = s := by
    unfold fixApiPaths
    rw [anchorStep_noop s h0, subEq_noop_match s h1, subStarts_noop_match s h2,
      endpointStep_noop s h3, publicStep_noop s h4, protectedStep_noop s h5,
      debugStep_noop s h6]
  exact ⟨hmain, by simp [run, hmain]⟩

/-- Witness for C6 at a concrete input. -/
theorem fixApiPaths_noop_witness :
    fixApiPaths "const x = 1;\n".data = "const x = 1;\n".data
    ∧ run "const x = 1;\n".data = ("const x = 1;\n".data, okMessage) :=
  fixApiPaths_noop_when_nothing_matches "const x = 1;\n".data
    (by decide) (by decide) (by decide) (by decide) (by decide) (by decide) (by decide)

/-- Claim C8: the transformation from the target file text to the written
output is a deterministic pure function of that text alone: two runs on
identical contents produce identical outputs, and the observable run is
fully determined by `fixApiPaths` together with the fixed success message
(the model takes no environment or command-line input). -/
theorem run_deterministic (s t : List Char) (h : s = t) :
    run s = run t ∧ run s = (fixApiPaths s, okMessage) := by
  subst h
  exact ⟨rfl, rfl⟩

/-- Witness for C8 at a concrete input. -/
theorem run_deterministic_witness :
    run "x".data = run "x".data ∧ run "x".data = (fixApiPaths "x".data, okMessage) :=
  run_deterministic "x".data "x".data rfl

/-- Claim C10: a prefix-style check whose literal is exactly `/api/`
(`u.pathname.startsWith('/api/')`) is not matched by the step-3 regex (its
capturing group needs at least one character after `/api/`): the debug-guard
line contains the step-3 literal prefix, yet the step-3 matcher does not fire
on it and the whole substitution leaves the text unchanged.  The line is
rewritten only by the literal step 6, which replaces it by the guard testing
`PROXY_API_BASE_PATH` (no `apiPath` call is introduced). -/
theorem debug_guard_rewritten_by_literal_step (p q : List Char)
    (h0 : countOcc sessionLine (p ++ debug_old ++ q) = 0)
    (h1 : hasEqMatch (p ++ debug_old ++ q) = false)
    (h2 : hasSwMatch (p ++ debug_old ++ q) = false)
    (h3 : countOcc marker (p ++ debug_old ++ q) = 0)
    (h4 : countOcc old_public (p ++ debug_old ++ q) = 0)
    (h5 : countOcc old_protected (p ++ debug_old ++ q) = 0)
    (h6 : countOcc debug_old (p ++ debug_old ++ q) = 1) :
    subStarts (p ++ debug_old ++ q) = p ++ debug_old ++ q
    ∧ fixApiPaths (p ++ debug_old ++ q) = p ++ debug_new ++ q
    ∧ countOcc swPat debug_old = 1
    ∧ swMatchAt (debug_old.drop 4) = false
    ∧ countOcc "PROXY_API_BASE_PATH".data debug_new = 1
    ∧ countOcc "apiPath".data debug_new = 0 := by
  refine ⟨subStarts_noop_match _ h2, ?_, by decide, by decide, by decide, by decide⟩
  unfold fixApiPaths
  rw [anchorStep_noop _ h0, subEq_noop_match _ h1, subStarts_noop_match _ h2,
    endpointStep_noop _ h3, publicStep_noop _ h4, protectedStep_noop _ h5]
  have h7 := debugStep_single p q (by simpa [List.append_assoc] using h6)
  simpa [List.append_assoc] using h7

/-- Claim C2 counterexample: an equality check against the bare literal
`/api/` (nothing after the prefix) is an equality check against a literal
beginning with `/api/`, but the regex capturing group `([^']+)` requires at
least one character, so the raw check survives the whole run unchanged. -/
theorem eq_check_empty_subpath_unchanged :
    fixApiPaths (eqPat ++ [qc]) = eqPat ++ [qc]
    ∧ countOcc (eqPat ++ [qc]) (fixApiPaths (eqPat ++ [qc])) = 1 := by
  constructor
  · exact eq_of_beqL (by decide)
  · decide

/-- Claim C2 (amended): every equality-style check `u.pathname === '/api/X'`
with a non-empty quote-free sub-path `X` is rewritten, globally across the
text, to `u.pathname === apiPath('X')`: for a text decomposed into segments
around such checks, in which the pattern prefix occurs only at those checks
and no other transformation step matches, the run rewrites exactly the
checks and leaves everything else unchanged.  A check with an empty
sub-path is not rewritten. -/
theorem fixApiPaths_eq_checks_rewritten (segs : List (List Char × List Char)) (tl : List Char)
    (hseg : ∀ s ∈ segs, s.2 ≠ [] ∧ qc ∉ s.2)
    (hcnt : countOcc eqPat (asmEq segs tl) = segs.length)
    (h0 : countOcc sessionLine (asmEq segs tl) = 0)
    (h1 : hasSwMatch (asmEqR segs tl) = false)
    (h2 : countOcc marker (asmEqR segs tl) = 0)
    (h3 : countOcc old_public (asmEqR segs tl) = 0)
    (h4 : countOcc old_protected (asmEqR segs tl) = 0)
    (h5 : countOcc debug_old (asmEqR segs tl) = 0) :
    fixApiPaths (asmEq segs tl) = asmEqR segs tl := by
  unfold fixApiPaths
  rw [anchorStep_noop _ h0, subEq_asm segs tl hseg hcnt, subStarts_noop_match _ h1,
    endpointStep_noop _ h2, publicStep_noop _ h3, protectedStep_noop _ h4,
    debugStep_noop _ h5]

/-- Segments of a two-check witness text for C2. -/
def c2segs : List (List Char × List Char) :=
  [("if (".data, "login".data), (")\x7b else if (".data, "admin/check".data)]

/-- Tail of the witness text for C2. -/
def c2tl : List Char := ")\x7b".data

/-- Witness for the amended C2: a text with two equality checks, both
rewritten in one run. -/
theorem fixApiPaths_eq_checks_rewritten_witness :
    fixApiPaths (asmEq c2segs c2tl) = asmEqR c2segs c2tl :=
  fixApiPaths_eq_checks_rewritten c2segs c2tl (by decide) (by decide) (by decide)
    (by decide) (by decide) (by decide) (by decide) (by decide)

/-- Claim C3 counterexample: a prefix-style check against the bare literal
`/api/` (`u.pathname.startsWith('/api/')`, literal argument starting with
`/api/`) is not rewritten: the step-3 capturing group requires at least one
character after `/api/`, and step 6 only replaces the full debug-guard
line, so the raw check survives the whole run unchanged. -/
theorem sw_check_empty_subpath_unchanged :
    fixApiPaths (swPat ++ [qc, rp]) = swPat ++ [qc, rp]
    ∧ countOcc (swPat ++ [qc, rp]) (fixApiPaths (swPat ++ [qc, rp])) = 1 := by
  constructor
  · exact eq_of_beqL (by decide)
  · decide

/-- Claim C3 (amended): every prefix-style check
`u.pathname.startsWith('/api/X')` with a non-empty quote-free sub-path `X`
is rewritten, globally across the text, to
`u.pathname.startsWith(apiPath('X'))`: for a text decomposed into segments
around such checks, in which the pattern prefix occurs only at those checks
and no other transformation step matches, the run rewrites exactly the
checks and leaves everything else unchanged.  A check with an empty
sub-path is not rewritten by this step. -/
theorem fixApiPaths_sw_checks_rewritten (segs : List (List Char × List Char)) (tl : List Char)
    (hseg : ∀ s ∈ segs, s.2 ≠ [] ∧ qc ∉ s.2)
    (hcnt : countOcc swPat (asmSw segs tl) = segs.length)
    (h0 : countOcc sessionLine (asmSw segs tl) = 0)
    (h1 : hasEqMatch (asmSw segs tl) = false)
    (h2 : countOcc marker (asmSwR segs tl) = 0)
    (h3 : countOcc old_public (asmSwR segs tl) = 0)
    (h4 : countOcc old_protected (asmSwR segs tl) = 0)
    (h5 : countOcc debug_old (asmSwR segs tl) = 0) :
    fixApiPaths (asmSw segs tl) = asmSwR segs tl := by
  unfold fixApiPaths
  rw [anchorStep_noop _ h0, subEq_noop_match _ h1, subStarts_asm segs tl hseg hcnt,
    endpointStep_noop _ h2, publicStep_noop _ h3, protectedStep_noop _ h4,
    debugStep_noop _ h5]

/-- Segments of a two-check witness text for C3. -/
def c3segs : List (List Char × List Char) :=
  [("if (".data, "admin/".data), (") \x7belse if (".data, "reports".data)]

/-- Tail of the witness text for C3. -/
def c3tl : List Char := ") \x7b".data

/-- Witness for the amended C3: a text with two prefix-style checks, both
rewritten in one run. -/
theorem fixApiPaths_sw_checks_rewritten_witness :
    fixApiPaths (asmSw c3segs c3tl) = asmSwR c3segs c3tl :=
  fixApiPaths_sw_checks_rewritten c3segs c3tl (by decide) (by decide) (by decide)
    (by decide) (by decide) (by decide) (by decide) (by decide)

/-- A literal array element `'/api/e'` as written in the original arrays. -/
def apiLit (e : List Char) : List Char := "\x27/api/".data ++ e ++ [qc]

/-- A rewritten array element `apiPath('e')`. -/
def apiCall (e : List Char) : List Char := "apiPath(\x27".data ++ e ++ "\x27)".data

/-- The sub-paths of the `publicEndpoints` array elements, in order. -/
def publicSubpaths : List (List Char) :=
  ["ai/health".data, "ai/stats".data, "ai/thoughts".data, "overrides/conflicts".data]

/-- The sub-paths of the `protectedPaths` array elements, in order. -/
def protectedSubpaths : List (List Char) :=
  ["apps/".data, "config/".data, "overrides/".data, "reports/".data, "ai/".data,
    "resolve-conflict".data, "rename-route".data]

/-- The `publicEndpoints` array block rendered from a list of elements. -/
def pubArray (elems : List (List Char)) : List Char :=
  "    // Public endpoints that don\x27t require authentication\n    const publicEndpoints = [\n      ".data
    ++ List.intercalate ",\n      ".data elems ++ "\n    ];".data

/-- The `protectedPaths` array block rendered from a list of elements. -/
def protArray (elems : List (List Char)) : List Char :=
  "    // Protect all admin/management endpoints (except public ones)\n    const protectedPaths = [\n      ".data
    ++ List.intercalate ",\n      ".data elems ++ "\n    ];".data

/-- Claim C4 counterexample: the claim's antecedent only asks the INPUT to
contain the array blocks byte-for-byte, but an earlier step can overlap
them: here the equality-check rewrite (step 2) consumes the beginning of
the `publicEndpoints` block (its quote-free run ends at the apostrophe of
`don't` in the block's comment line), so at step 5 the block no longer
matches byte-for-byte and the array elements survive un-rewritten. -/
theorem array_block_destroyed_by_eq_rewrite :
    countOcc old_public (eqPat ++ "x\n".data ++ old_public) = 1
    ∧ countOcc (apiLit "ai/health".data) (fixApiPaths (eqPat ++ "x\n".data ++ old_public)) = 1
    ∧ countOcc (apiCall "ai/health".data) (fixApiPaths (eqPat ++ "x\n".data ++ old_public)) = 0 := by
  refine ⟨by decide, by decide, by decide⟩

/-- Claim C4 (amended): if the text reaching step 5 still contains the two
array declarations byte-for-byte — in particular when the input contains
them exactly once and no earlier step matches overlapping text — then after
the run each array contains the same number of elements in the same order,
each element rewritten from `'/api/X'` to `apiPath('X')`; and on any text
not containing a block byte-for-byte the corresponding replacement step
changes nothing. -/
theorem fixApiPaths_array_blocks_rewritten (p q r s2 : List Char)
    (h0 : countOcc sessionLine (p ++ old_public ++ q ++ old_protected ++ r) = 0)
    (h1 : hasEqMatch (p ++ old_public ++ q ++ old_protected ++ r) = false)
    (h2 : hasSwMatch (p ++ old_public ++ q ++ old_protected ++ r) = false)
    (h3 : countOcc marker (p ++ old_public ++ q ++ old_protected ++ r) = 0)
    (h4 : countOcc old_public (p ++ old_public ++ q ++ old_protected ++ r) = 1)
    (h5 : countOcc old_protected (p ++ new_public ++ q ++ old_protected ++ r) = 1)
    (h6 : countOcc debug_old (p ++ new_public ++ q ++ new_protected ++ r) = 0) :
    fixApiPaths (p ++ old_public ++ q ++ old_protected ++ r)
      = p ++ new_public ++ q ++ new_protected ++ r
    ∧ old_public = pubArray (publicSubpaths.map apiLit)
    ∧ new_public = pubArray (publicSubpaths.map apiCall)
    ∧ old_protected = protArray (protectedSubpaths.map apiLit)
    ∧ new_protected = protArray (protectedSubpaths.map apiCall)
    ∧ (countOcc old_public s2 = 0 → publicStep s2 = s2)
    ∧ (countOcc old_protected s2 = 0 → protectedStep s2 = s2) := by
  refine ⟨?_, by decide, by decide, by decide, by decide,
    fun h => publicStep_noop s2 h, fun h => protectedStep_noop s2 h⟩
  unfold fixApiPaths
  simp only [List.append_assoc] at *
  rw [anchorStep_noop _ h0, subEq_noop_match _ h1, subStarts_noop_match _ h2,
    endpointStep_noop _ h3]
  rw [publicStep_single p (q ++ (old_protected ++ r)) h4]
  have hpr := protectedStep_single (p ++ (new_public ++ q)) r
    (by simpa [List.append_assoc] using h5)
  simp only [List.append_assoc] at hpr
  rw [hpr, debugStep_noop _ h6]

/-- Witness for the amended C4 at a concrete input. -/
theorem fixApiPaths_array_blocks_rewritten_witness :
    fixApiPaths ("A\n".data ++ old_public ++ "\n".data ++ old_protected ++ "\nZ".data)
      = "A\n".data ++ new_public ++ "\n".data ++ new_protected ++ "\nZ".data
    ∧ old_public = pubArray (publicSubpaths.map apiLit)
    ∧ new_public = pubArray (publicSubpaths.map apiCall)
    ∧ old_protected = protArray (protectedSubpaths.map apiLit)
    ∧ new_protected = protArray (protectedSubpaths.map apiCall)
    ∧ (countOcc old_public "plain".data = 0 → publicStep "plain".data = "plain".data)
    ∧ (countOcc old_protected "plain".data = 0 → protectedStep "plain".data = "plain".data) :=
  fixApiPaths_array_blocks_rewritten "A\n".data "\n".data "\nZ".data "plain".data
    (by decide) (by decide) (by decide) (by decide) (by decide) (by decide) (by decide)

/-- Claim C1 counterexample: on an input containing the anchor line twice,
the script inserts the configuration block after BOTH occurrences (Python
`str.replace` replaces every occurrence), so the output contains two copies
of the block, not one copy after the first occurrence only. -/
theorem anchor_insertion_not_only_after_first :
    fixApiPaths (sessionLine ++ nl ++ sessionLine)
      = sessionLine ++ config_section ++ nl ++ sessionLine ++ config_section
    ∧ countOcc config_section (fixApiPaths (sessionLine ++ nl ++ sessionLine)) = 2 := by
  constructor
  · exact eq_of_beqL (by decide)
  · decide

/-- Claim C1 (amended): the Patcher inserts the configuration block
immediately after every literal occurrence of the anchor line; in
particular, for a target file containing the anchor line exactly once, in
which no other transformation step matches and which does not already
contain the block, the output contains exactly one copy of the
configuration block, placed immediately after that line. -/
theorem fixApiPaths_single_anchor_insert (p q : List Char)
    (h1 : countOcc sessionLine (p ++ sessionLine ++ q) = 1)
    (h2 : hasEqMatch (p ++ sessionLine ++ config_section ++ q) = false)
    (h3 : hasSwMatch (p ++ sessionLine ++ config_section ++ q) = false)
    (h4 : countOcc marker (p ++ sessionLine ++ config_section ++ q) = 0)
    (h5 : countOcc old_public (p ++ sessionLine ++ config_section ++ q) = 0)
    (h6 : countOcc old_protected (p ++ sessionLine ++ config_section ++ q) = 0)
    (h7 : countOcc debug_old (p ++ sessionLine ++ config_section ++ q) = 0)
    (h8 : countOcc config_section (p ++ sessionLine ++ config_section ++ q) = 1) :
    fixApiPaths (p ++ sessionLine ++ q) = p ++ sessionLine ++ config_section ++ q
    ∧ countOcc config_section (fixApiPaths (p ++ sessionLine ++ q)) = 1 := by
  have hmain : fixApiPaths (p ++ sessionLine ++ q) = p ++ sessionLine ++ config_section ++ q := by
    unfold fixApiPaths
    have ha := anchorStep_single p q (by simpa [List.append_assoc] using h1)
    simp only [List.append_assoc] at *
    rw [ha, subEq_noop_match _ h2, subStarts_noop_match _ h3, endpointStep_noop _ h4,
      publicStep_noop _ h5, protectedStep_noop _ h6, debugStep_noop _ h7]
  exact ⟨hmain, by rw [hmain]; exact h8⟩

/-- Witness for the amended C1 at a concrete input. -/
theorem fixApiPaths_single_anchor_insert_witness :
    fixApiPaths ([] ++ sessionLine ++ nl) = [] ++ sessionLine ++ config_section ++ nl
    ∧ countOcc config_section (fixApiPaths ([] ++ sessionLine ++ nl)) = 1 :=
  fixApiPaths_single_anchor_insert [] nl
    (by decide) (by decide) (by decide) (by decide) (by decide) (by decide) (by decide)
    (by decide)

/-- A minimal fresh target file used to witness the rerun behavior: the
anchor line, one equality-style check, one prefix-style check and the
debug guard. -/
def c7file : List Char :=
  sessionLine ++ nl ++ "u.pathname === \x27/api/login\x27".data ++ nl
    ++ "u.pathname.startsWith(\x27/api/admin/\x27)".data ++ nl ++ debug_old

/-- The tail of the once-patched form of `c7file`, after the anchor line. -/
def c7tail : List Char :=
  config_section ++ nl ++ "u.pathname === apiPath(\x27login\x27)".data ++ nl
    ++ "u.pathname.startsWith(apiPath(\x27admin/\x27))".data ++ nl ++ debug_new

/-- Claim C7: running the transformation twice on a fresh target file
containing the anchor line produces two copies of the configuration block:
the once-patched text still contains the anchor line, so the second run
inserts the block again, while the rewrites of steps 2, 3 and 6 change
nothing on the second run because their `/api/` literal patterns no longer
match. -/
theorem fixApiPaths_twice_duplicates_config_section (s p q : List Char)
    (h0 : fixApiPaths s = p ++ sessionLine ++ q)
    (h1 : countOcc sessionLine (p ++ sessionLine ++ q) = 1)
    (h2 : hasEqMatch (p ++ sessionLine ++ config_section ++ q) = false)
    (h3 : hasSwMatch (p ++ sessionLine ++ config_section ++ q) = false)
    (h4 : countOcc marker (p ++ sessionLine ++ config_section ++ q) = 0)
    (h5 : countOcc old_public (p ++ sessionLine ++ config_section ++ q) = 0)
    (h6 : countOcc old_protected (p ++ sessionLine ++ config_section ++ q) = 0)
    (h7 : countOcc debug_old (p ++ sessionLine ++ config_section ++ q) = 0)
    (h8 : countOcc config_section (p ++ sessionLine ++ config_section ++ q) = 2) :
    fixApiPaths (fixApiPaths s) = p ++ sessionLine ++ config_section ++ q
    ∧ countOcc config_section (fixApiPaths (fixApiPaths s)) = 2
    ∧ subEq (p ++ sessionLine ++ config_section ++ q)
        = p ++ sessionLine ++ config_section ++ q
    ∧ subStarts (p ++ sessionLine ++ config_section ++ q)
        = p ++ sessionLine ++ config_section ++ q
    ∧ debugStep (p ++ sessionLine ++ config_section ++ q)
        = p ++ sessionLine ++ config_section ++ q := by
  have hmain : fixApiPaths (fixApiPaths s) = p ++ sessionLine ++ config_section ++ q := by
    rw [h0]
    unfold fixApiPaths
    have ha := anchorStep_single p q (by simpa [List.append_assoc] using h1)
    simp only [List.append_assoc] at *
    rw [ha, subEq_noop_match _ h2, subStarts_noop_match _ h3, endpointStep_noop _ h4,
      publicStep_noop _ h5, protectedStep_noop _ h6, debugStep_noop _ h7]
  exact ⟨hmain, by rw [hmain]; exact h8, subEq_noop_match _ h2, subStarts_noop_match _ h3,
    debugStep_noop _ h7⟩

/-- Witness for C7: the minimal fresh file `c7file` run through the pipeline
twice. -/
theorem fixApiPaths_twice_duplicates_config_section_witness :
    fixApiPaths (fixApiPaths c7file) = [] ++ sessionLine ++ config_section ++ c7tail
    ∧ countOcc config_section (fixApiPaths (fixApiPaths c7file)) = 2
    ∧ subEq ([] ++ sessionLine ++ config_section ++ c7tail)
        = [] ++ sessionLine ++ config_section ++ c7tail
    ∧ subStarts ([] ++ sessionLine ++ config_section ++ c7tail)
        = [] ++ sessionLine ++ config_section ++ c7tail
    ∧ debugStep ([] ++ sessionLine ++ config_section ++ c7tail)
        = [] ++ sessionLine ++ config_section ++ c7tail :=
  fixApiPaths_twice_duplicates_config_section c7file [] c7tail
    (eq_of_beqL (by decide)) (by decide) (by decide) (by decide) (by decide) (by decide)
    (by decide) (by decide) (by decide)

/-- Claim C9: running the transformation twice on a fresh target file
containing the protected-routes marker block produces two copies of the
inserted `GET /config` route branch: the marker block is still present
verbatim after the first insertion, so the second run inserts the branch
again — the double-insertion-on-rerun behavior is not limited to the
configuration block of step 1. -/
theorem fixApiPaths_twice_duplicates_config_endpoint (s p q : List Char)
    (h0 : fixApiPaths s = p ++ marker ++ q)
    (h1 : countOcc sessionLine (p ++ marker ++ q) = 0)
    (h2 : hasEqMatch (p ++ marker ++ q) = false)
    (h3 : hasSwMatch (p ++ marker ++ q) = false)
    (h4 : countOcc marker (p ++ marker ++ q) = 1)
    (h5 : countOcc old_public (p ++ config_endpoint ++ nl ++ marker ++ q) = 0)
    (h6 : countOcc old_protected (p ++ config_endpoint ++ nl ++ marker ++ q) = 0)
    (h7 : countOcc debug_old (p ++ config_endpoint ++ nl ++ marker ++ q) = 0)
    (h8 : countOcc config_endpoint (p ++ config_endpoint ++ nl ++ marker ++ q) = 2) :
    fixApiPaths (fixApiPaths s) = p ++ config_endpoint ++ nl ++ marker ++ q
    ∧ countOcc config_endpoint (fixApiPaths (fixApiPaths s)) = 2 := by
  have hmain : fixApiPaths (fixApiPaths s) = p ++ config_endpoint ++ nl ++ marker ++ q := by
    rw [h0]
    unfold fixApiPaths
    have he := endpointStep_single p q (by simpa [List.append_assoc] using h4)
    simp only [List.append_assoc] at *
    rw [anchorStep_noop _ h1, subEq_noop_match _ h2, subStarts_noop_match _ h3, he,
      publicStep_noop _ h5, protectedStep_noop _ h6, debugStep_noop _ h7]
  exact ⟨hmain, by rw [hmain]; exact h8⟩

/-- Witness for C9: a file consisting of the marker block alone, run through
the pipeline twice. -/
theorem fixApiPaths_twice_duplicates_config_endpoint_witness :
    fixApiPaths (fixApiPaths marker)
      = (config_endpoint ++ nl) ++ config_endpoint ++ nl ++ marker ++ []
    ∧ countOcc config_endpoint (fixApiPaths (fixApiPaths marker)) = 2 :=
  fixApiPaths_twice_duplicates_config_endpoint marker (config_endpoint ++ nl) []
    (eq_of_beqL (by decide)) (by decide) (by decide) (by decide) (by decide) (by decide)
    (by decide) (by decide) (by decide)

/-- Witness for C10 at a concrete input. -/
theorem debug_guard_rewritten_witness :
    subStarts ("  ".data ++ debug_old ++ "\n".data) = "  ".data ++ debug_old ++ "\n".data
    ∧ fixApiPaths ("  ".data ++ debug_old ++ "\n".data) = "  ".data ++ debug_new ++ "\n".data
    ∧ countOcc swPat debug_old = 1
    ∧ swMatchAt (debug_old.drop 4) = false
    ∧ countOcc "PROXY_API_BASE_PATH".data debug_new = 1
    ∧ countOcc "apiPath".data debug_new = 0 :=
  debug_guard_rewritten_by_literal_step "  ".data "\n".data
    (by decide) (by decide) (by decide) (by decide) (by decide) (by decide) (by decide)

end DevProxy
